import Mathlib

/-!
Shallow embedding of the gemini client's core (src/models.rs, src/errors.rs,
src/client.rs, src/handlers.rs).  Rust standard-library string primitives
(`str::lines`, `str::splitn`, `str::trim_start`, `str::trim_start_matches`,
`str::trim`, `str::starts_with`, `u8::from_str`) are modelled at the
character-list level; machine integers are modelled as `Nat` (the status code
is guarded by the 0..=255 range check of `u8::from_str`).
-/

deriving instance DecidableEq for Except

namespace Gemini

/-! ## Rust string primitives, modelled on `List Char` -/

/-- Whitespace test used by Rust's `trim` family (ASCII whitespace suffices
for the protocol's line-oriented text). -/
def isWS (c : Char) : Bool :=
  c == ' ' || c == '\t' || c == '\r' || c == '\n'

def dropWS : List Char → List Char
  | [] => []
  | c :: cs => if isWS c then dropWS cs else c :: cs

/-- Models Rust `str::trim_start`. -/
def trimStartS (s : String) : String := ⟨dropWS s.data⟩

/-- Models Rust `str::trim` (strip leading and trailing whitespace). -/
def trimS (s : String) : String := ⟨(dropWS (dropWS s.data).reverse).reverse⟩

def startsWithL : List Char → List Char → Bool
  | _, [] => true
  | [], _ :: _ => false
  | c :: cs, p :: ps => c == p && startsWithL cs ps

/-- Models Rust `str::starts_with` for a string pattern. -/
def startsWithS (s pat : String) : Bool := startsWithL s.data pat.data

/-- Models Rust `str::splitn(2, ' ')`: the part before the first space, and
the remainder after it when a space exists. -/
def splitFirstSpace : List Char → List Char × Option (List Char)
  | [] => ([], none)
  | c :: cs =>
    if c == ' ' then ([], some cs)
    else
      let p := splitFirstSpace cs
      (c :: p.1, p.2)

/-- Models Rust `str::trim_start_matches("=>")`: strip every leading
occurrence of the two-character marker. -/
def stripMarkerL : List Char → List Char
  | '=' :: '>' :: rest => stripMarkerL rest
  | l => l

def stripMarker (s : String) : String := ⟨stripMarkerL s.data⟩

/-- Drop the carriage return sitting just before a line terminator; the
argument is the current line reversed, so the carriage return is its head. -/
def stripCRrev : List Char → List Char
  | '\r' :: cur2 => cur2
  | cur => cur

/-- Models Rust `str::lines`: split at newlines, strip a carriage return that
immediately precedes a newline, and do not yield a final empty line after a
trailing line terminator.  The accumulator holds the current line reversed. -/
def rustLinesAux : List Char → List Char → List (List Char)
  | cur, [] => if cur = [] then [] else [cur.reverse]
  | cur, c :: rest =>
    if c == '\n' then (stripCRrev cur).reverse :: rustLinesAux [] rest
    else rustLinesAux (c :: cur) rest

def rustLines (s : String) : List String :=
  (rustLinesAux [] s.data).map (fun l => ⟨l⟩)

def parseDigitsAux : List Char → Nat → Option Nat
  | [], acc => some acc
  | c :: cs, acc =>
    if c.isDigit then parseDigitsAux cs (acc * 10 + (c.toNat - '0'.toNat)) else none

/-- Models Rust `<u8 as FromStr>::from_str`: an optional leading plus sign,
then at least one decimal digit, with failure on any other character and on
values exceeding 255. -/
def parseU8 (s : String) : Option Nat :=
  let chars :=
    match s.data with
    | '+' :: rest => rest
    | l => l
  match chars with
  | [] => none
  | _ =>
    match parseDigitsAux chars 0 with
    | some v => if v ≤ 255 then some v else none
    | none => none

/-! ## src/models.rs -/

inductive Pager
  | Less
  | More
  | Bat
  | Neovim
deriving DecidableEq, Repr

inductive StatusCode
  | Input
  | Success
  | Redirect
  | TemporaryFailure
  | PermanentFailure
  | ClientCertificateRequired
  | Unknown (code : Nat)
deriving DecidableEq, Repr

/-- Embeds `impl From<u8> for StatusCode` (src/models.rs lines 30-42). -/
def StatusCode.fromNum (code : Nat) : StatusCode :=
  if 10 ≤ code ∧ code ≤ 19 then .Input
  else if 20 ≤ code ∧ code ≤ 29 then .Success
  else if 30 ≤ code ∧ code ≤ 39 then .Redirect
  else if 40 ≤ code ∧ code ≤ 49 then .TemporaryFailure
  else if 50 ≤ code ∧ code ≤ 59 then .PermanentFailure
  else if 60 ≤ code ∧ code ≤ 69 then .ClientCertificateRequired
  else .Unknown code

structure Link where
  href : String
  name : Option String
deriving DecidableEq, Repr

/-- Embeds `impl TryFrom<&str> for Link` (src/models.rs lines 112-136),
composed with `.ok()` as used at the call site.  `splitn(2, ' ')` always
yields a first part, so the source's `InvalidFormat` branch guarded by
`parts.first()` being absent cannot fire; the only failure is a line that
does not start with the marker after `trim_start`. -/
def linkTryFrom (line : String) : Option Link :=
  let trimmed := trimStartS line
  if startsWithS trimmed "=>" then
    let rest := trimS (stripMarker trimmed)
    let parts := splitFirstSpace rest.data
    some { href := ⟨parts.1⟩, name := parts.2.map (fun l => ⟨l⟩) }
  else
    none

inductive ResponseError
  | EmptyResponse
  | MissingStatusCode
  | InvalidStatusCode
  | MissingMetaDescription
  | BodyParseError
  | GeneralParseError (msg : String)
deriving DecidableEq, Repr

structure Response where
  status_code : StatusCode
  status_code_num : Nat
  meta_description : String
  body : Option String
  links : List Link
deriving DecidableEq, Repr

/-- Embeds the body-annotating map over the remaining lines
(src/models.rs lines 172-184): a line whose `trim_start` starts with the
marker is replaced by `"(count) " ++ trimmed line` and the counter is
incremented; any other line passes through unchanged. -/
def annotateBody : List String → Nat → List String
  | [], _ => []
  | line :: rest, count =>
    if startsWithS (trimStartS line) "=>" then
      ("(" ++ toString count ++ ") " ++ trimStartS line) :: annotateBody rest (count + 1)
    else
      line :: annotateBody rest count

/-- Embeds the link extraction filter_map (src/models.rs lines 186-194):
only lines starting with the marker without any trimming are considered. -/
def extractLinks (lines : List String) : List Link :=
  lines.filterMap fun line =>
    if startsWithS line "=>" then linkTryFrom line else none

/-- Embeds `first_line.splitn(2, ' ')` collected to a list of parts. -/
def splitn2 (s : String) : List String :=
  match splitFirstSpace s.data with
  | (a, none) => [(⟨a⟩ : String)]
  | (a, some b) => [⟨a⟩, ⟨b⟩]

/-- Embeds `impl TryFrom<&str> for Response` (src/models.rs lines 146-207). -/
def responseTryFrom (s : String) : Except ResponseError Response :=
  match rustLines s with
  | [] => .error .EmptyResponse
  | first_line :: rest =>
    match (splitn2 first_line).head? with
    | none => .error .MissingStatusCode
    | some tok =>
      match parseU8 tok with
      | none => .error .InvalidStatusCode
      | some status_code_num =>
        match (splitn2 first_line).get? 1 with
        | none => .error .MissingMetaDescription
        | some meta =>
          .ok { status_code := StatusCode.fromNum status_code_num
                status_code_num := status_code_num
                meta_description := meta
                body :=
                  if String.intercalate "\n" (annotateBody rest 0) = "" then none
                  else some (String.intercalate "\n" (annotateBody rest 0))
                links := extractLinks rest }

/-! ## Locations (the external `url` crate, modelled) -/

/-- Modelled from the spec: the repository delegates location handling to an
external URL library that is not part of the repository's sources.  Per §3 a
Location is an absolute addressable reference (scheme, host, optional port,
path, optional query) with structural equality.  The model keeps the path as
its slash-separated segments (so path `[]` renders as the empty path, and
`["dir", "page"]` renders as the path of `scheme://host/dir/page`); the port
is not needed by any claim and is omitted. -/
structure Url where
  scheme : String
  host : String
  path : List String
  query : Option String
deriving DecidableEq, Repr

def validScheme (s : String) : Bool :=
  match s.data with
  | [] => false
  | c :: rest =>
    c.isAlpha && rest.all fun d => d.isAlpha || d.isDigit || d = '+' || d = '-' || d = '.'

/-- Split a character list at the first occurrence of the `://` separator. -/
def splitSchemeAux : List Char → Option (List Char × List Char)
  | ':' :: '/' :: '/' :: rest => some ([], rest)
  | c :: rest => (splitSchemeAux rest).map (fun p => (c :: p.1, p.2))
  | [] => none

/-- Split the part after the authority marker into host and the remainder
starting at the first slash or question mark. -/
def splitHostRest : List Char → List Char × List Char
  | [] => ([], [])
  | c :: cs =>
    if c = '/' || c = '?' then ([], c :: cs)
    else
      let (h, r) := splitHostRest cs
      (c :: h, r)

/-- Split a reference at the first question mark into path part and query. -/
def splitQueryAux : List Char → List Char × Option (List Char)
  | [] => ([], none)
  | '?' :: cs => ([], some cs)
  | c :: cs =>
    let (a, q) := splitQueryAux cs
    (c :: a, q)

def splitSlash : List Char → List (List Char)
  | [] => [[]]
  | '/' :: cs => [] :: splitSlash cs
  | c :: cs =>
    match splitSlash cs with
    | [] => [[c]]
    | l :: ls => (c :: l) :: ls

/-- Path characters to segments: a leading slash is dropped, the rest is
split at slashes (`/a/b` becomes `["a", "b"]`, `/` becomes `[""]`, a
relative `./bar` becomes `[".", "bar"]`, and the empty path becomes `[]`). -/
def pathSegs : List Char → List String
  | [] => []
  | '/' :: rest => (splitSlash rest).map (fun l => ⟨l⟩)
  | p => (splitSlash p).map (fun l => ⟨l⟩)

/-- Modelled from the spec: `Url::parse` of the external URL library for
hierarchical `scheme://...` references, per the §3 Location shape.  A string
without a scheme and authority (for example a bare path or a
protocol-relative `//host` reference) is rejected, as the library rejects
references without a base; non-hierarchical opaque forms are outside the
model. -/
def parseUrl (s : String) : Option Url :=
  match splitSchemeAux s.data with
  | none => none
  | some (sch, rest) =>
    if validScheme ⟨sch⟩ then
      let (host, hrest) := splitHostRest rest
      let (pq, q) := splitQueryAux hrest
      some { scheme := ⟨sch⟩
             host := ⟨host⟩
             path := pathSegs pq
             query := q.map (fun l => ⟨l⟩) }
    else
      none

/-- Dot-segment removal over path segments (RFC 3986 §5.2.4): a `.` segment
is dropped (leaving a trailing empty segment when final), a `..` segment
removes the preceding segment.  The accumulator holds the output reversed. -/
def removeDotSegs : List String → List String → List String
  | acc, [] => acc.reverse
  | acc, ["."] => ("" :: acc).reverse
  | acc, [".."] => ("" :: acc.drop 1).reverse
  | acc, "." :: rest => removeDotSegs acc rest
  | acc, ".." :: rest => removeDotSegs (acc.drop 1) rest
  | acc, seg :: rest => removeDotSegs (seg :: acc) rest

/-- Modelled from the spec: `Url::join` of the external URL library, i.e.
RFC 3986 §5.2 relative resolution as described in §4.3 of the spec — an
absolute-path reference replaces the whole path, any other path reference is
merged onto the base path with its last segment dropped, and dot segments
are removed.  The scheme and host of the base are kept. -/
def joinUrl (base : Url) (ref : String) : Option Url :=
  let (p, q) := splitQueryAux ref.data
  let qs := q.map (fun l => (⟨l⟩ : String))
  match p with
  | [] => some { base with query := qs }
  | '/' :: _ => some { base with path := removeDotSegs [] (pathSegs p), query := qs }
  | _ =>
    some { base with
           path := removeDotSegs [] (base.path.dropLast ++ pathSegs p)
           query := qs }

/-- Modelled from the spec: the variants of the URL library's parse error
that the client code names (`RelativeUrlWithoutBase`) or merely propagates. -/
inductive UrlParseError
  | RelativeUrlWithoutBase
  | OtherParseError
deriving DecidableEq, Repr

/-! ## src/client.rs -/

structure Client where
  current_url : Url
  redirects : Nat
  max_redirects : Nat
  history : List Url
  last_working_url : Option Url
  pager : Pager
deriving DecidableEq, Repr

/-- Embeds `Client::new` (src/client.rs lines 17-27). -/
def Client.new (url : Url) (pager : Pager) : Client :=
  { current_url := url
    redirects := 0
    max_redirects := 5
    history := []
    last_working_url := none
    pager := pager }

/-- Embeds the state effect of `Client::request` (src/client.rs lines 29-33):
push the URL onto the history and make it current.  The network send and the
returned response are supplied by the transport collaborator and are
threaded separately by the navigation-step models below. -/
def Client.request (c : Client) (url : Url) : Client :=
  { c with history := c.history ++ [url], current_url := url }

/-- Embeds `Client::previous_url` (src/client.rs lines 64-66): the LAST
history entry. -/
def Client.previous_url (c : Client) : Option Url :=
  c.history.getLast?

/-- Embeds `Client::actual_previous_url` (src/client.rs lines 68-74): the
next-to-last history entry, or none when the history has fewer than two
entries. -/
def Client.actual_previous_url (c : Client) : Option Url :=
  if 2 ≤ c.history.length then c.history.get? (c.history.length - 2) else none

/-- Embeds `Client::click_link` (src/client.rs lines 35-62).  The spawn of
the OS-level opener for a foreign scheme is an external fire-and-forget
action with no effect on the session state; the function then yields the
current location unchanged. -/
def Client.click_link (c : Client) (link : String) : Except UrlParseError Url :=
  match parseUrl link with
  | some parsed_url =>
    if parsed_url.scheme = "gemini" then
      if parsed_url = c.current_url then
        match c.previous_url with
        | some u => .ok u
        | none => .error .RelativeUrlWithoutBase
      else
        .ok parsed_url
    else
      .ok c.current_url
  | none =>
    if startsWithS link "//" then
      match parseUrl (c.current_url.scheme ++ ":" ++ link) with
      | some u => .ok u
      | none => .error .OtherParseError
    else if startsWithS link "/" then
      match joinUrl c.current_url link with
      | some u => .ok u
      | none => .error .OtherParseError
    else
      match joinUrl c.current_url ("./" ++ link) with
      | some u => .ok u
      | none => .error .OtherParseError

/-! ## src/handlers.rs -/

/-- Embeds the session-state effect of `handle_success`
(src/handlers.rs lines 46-49): record the fetched location as
last-known-good and reset the redirect counter.  Piping the document to the
pager and prompting for the next target are display/prompt collaborators
with no further effect on the session state. -/
def handle_success_state (c : Client) (url : Url) : Client :=
  { c with last_working_url := some url, redirects := 0 }

/-- Embeds `handle_redirect` (src/handlers.rs lines 103-119): increment the
redirect counter; at or beyond the bound yield the last-known-good location
without resolving, otherwise resolve the response's meta as a link, a
resolution failure yielding no next location. -/
def handle_redirect (c : Client) (meta : String) : Client × Option Url :=
  let c1 : Client := { c with redirects := c.redirects + 1 }
  if c1.max_redirects ≤ c1.redirects then
    (c1, c1.last_working_url)
  else
    match c1.click_link meta with
    | .ok new_url => (c1, some new_url)
    | .error _ => (c1, none)

/-- One Redirect-classified navigation step: `handle_request` performs
`client.request(url)` and then, for a Redirect-classified response, calls
`handle_redirect` with the response's meta (src/handlers.rs lines 18-34). -/
def redirectStep (c : Client) (target : Url) (meta : String) : Client × Option Url :=
  handle_redirect (c.request target) meta

/-- The driving loop of a session every fetch of which classifies as
Redirect: starting from the target `u`, each step feeds the location
produced by the previous step back into `redirectStep`; once a step yields
no next location the session has terminated and the state is left fixed.
`meta n` is the redirect target the n-th fetch carries. -/
def redirectTrace (c : Client) (u : Url) (meta : Nat → String) : Nat → Client × Option Url
  | 0 => (c, some u)
  | n + 1 =>
    match redirectTrace c u meta n with
    | (c1, some u1) => redirectStep c1 u1 (meta n)
    | (c1, none) => (c1, none)

/-- Number of link lines (in the annotation sense: the trimmed line starts
with the marker) strictly before position j. -/
def countLinkBefore (lines : List String) (j : Nat) : Nat :=
  ((lines.take j).filter fun l => startsWithS (trimStartS l) "=>").length

/-! ## Theorems -/

/-- C1: status classification is a total pure function of the numeric code:
for every code in 0-255, codes 10-19 map to Input, 20-29 to Success, 30-39 to
Redirect, 40-49 to TemporaryFailure, 50-59 to PermanentFailure, 60-69 to
ClientCertificateRequired, and every other code to Unknown; the boundary
codes 9, 10, 19, 20, 29, 30, 39, 40, 49, 50, 59, 60, 69 and 70 land on the
documented sides.  Totality and uniqueness of the class hold because
`StatusCode.fromNum` is a Lean function. -/
theorem statusCode_classification (c : Nat) (hc : c ≤ 255) :
    ((10 ≤ c ∧ c ≤ 19) → StatusCode.fromNum c = .Input)
    ∧ ((20 ≤ c ∧ c ≤ 29) → StatusCode.fromNum c = .Success)
    ∧ ((30 ≤ c ∧ c ≤ 39) → StatusCode.fromNum c = .Redirect)
    ∧ ((40 ≤ c ∧ c ≤ 49) → StatusCode.fromNum c = .TemporaryFailure)
    ∧ ((50 ≤ c ∧ c ≤ 59) → StatusCode.fromNum c = .PermanentFailure)
    ∧ ((60 ≤ c ∧ c ≤ 69) → StatusCode.fromNum c = .ClientCertificateRequired)
    ∧ (¬(10 ≤ c ∧ c ≤ 69) → StatusCode.fromNum c = .Unknown c)
    ∧ (StatusCode.fromNum 9 = .Unknown 9 ∧ StatusCode.fromNum 10 = .Input
       ∧ StatusCode.fromNum 19 = .Input ∧ StatusCode.fromNum 20 = .Success
       ∧ StatusCode.fromNum 29 = .Success ∧ StatusCode.fromNum 30 = .Redirect
       ∧ StatusCode.fromNum 39 = .Redirect ∧ StatusCode.fromNum 40 = .TemporaryFailure
       ∧ StatusCode.fromNum 49 = .TemporaryFailure ∧ StatusCode.fromNum 50 = .PermanentFailure
       ∧ StatusCode.fromNum 59 = .PermanentFailure
       ∧ StatusCode.fromNum 60 = .ClientCertificateRequired
       ∧ StatusCode.fromNum 69 = .ClientCertificateRequired
       ∧ StatusCode.fromNum 70 = .Unknown 70) := by
  refine ⟨?_, ?_, ?_, ?_, ?_, ?_, ?_, by decide⟩ <;>
    · intro h
      unfold StatusCode.fromNum
      split_ifs <;> first | rfl | (exfalso; omega)

/-- C1 witness: classification at the concrete code 15. -/
theorem statusCode_classification_witness : StatusCode.fromNum 15 = StatusCode.Input :=
  (statusCode_classification 15 (by decide)).1 (by decide)

/-- C4: every navigation step for a target appends the target to the history
and makes it the current location; a Success-classified step records the
fetched location as last-known-good, resets the redirect counter to 0, and
leaves the history alone.  In the concrete scenario (Success at L0, link
click to L1 answered by a Redirect whose meta resolves to L2, then Success
at L2) the final history is [L0, L1, L2], the last-known-good location is L2
and the redirect counter is 0. -/
theorem request_appends_success_records :
    (∀ (c : Client) (u : Url),
        (c.request u).history = c.history ++ [u] ∧ (c.request u).current_url = u)
    ∧ (∀ (c : Client) (u : Url),
        (handle_success_state c u).last_working_url = some u
        ∧ (handle_success_state c u).redirects = 0
        ∧ (handle_success_state c u).history = c.history)
    ∧ ((handle_redirect
          ((handle_success_state
              ((Client.new ⟨"gemini", "host", ["a"], none⟩ Pager.Less).request
                ⟨"gemini", "host", ["a"], none⟩)
              ⟨"gemini", "host", ["a"], none⟩).request
            ⟨"gemini", "host", ["b"], none⟩)
          "gemini://host/c").2 = some ⟨"gemini", "host", ["c"], none⟩
       ∧ (handle_success_state
            (((handle_redirect
                ((handle_success_state
                    ((Client.new ⟨"gemini", "host", ["a"], none⟩ Pager.Less).request
                      ⟨"gemini", "host", ["a"], none⟩)
                    ⟨"gemini", "host", ["a"], none⟩).request
                  ⟨"gemini", "host", ["b"], none⟩)
                "gemini://host/c").1).request ⟨"gemini", "host", ["c"], none⟩)
            ⟨"gemini", "host", ["c"], none⟩).history
          = [⟨"gemini", "host", ["a"], none⟩, ⟨"gemini", "host", ["b"], none⟩,
             ⟨"gemini", "host", ["c"], none⟩]
       ∧ (handle_success_state
            (((handle_redirect
                ((handle_success_state
                    ((Client.new ⟨"gemini", "host", ["a"], none⟩ Pager.Less).request
                      ⟨"gemini", "host", ["a"], none⟩)
                    ⟨"gemini", "host", ["a"], none⟩).request
                  ⟨"gemini", "host", ["b"], none⟩)
                "gemini://host/c").1).request ⟨"gemini", "host", ["c"], none⟩)
            ⟨"gemini", "host", ["c"], none⟩).last_working_url
          = some ⟨"gemini", "host", ["c"], none⟩
       ∧ (handle_success_state
            (((handle_redirect
                ((handle_success_state
                    ((Client.new ⟨"gemini", "host", ["a"], none⟩ Pager.Less).request
                      ⟨"gemini", "host", ["a"], none⟩)
                    ⟨"gemini", "host", ["a"], none⟩).request
                  ⟨"gemini", "host", ["b"], none⟩)
                "gemini://host/c").1).request ⟨"gemini", "host", ["c"], none⟩)
            ⟨"gemini", "host", ["c"], none⟩).redirects = 0) := by
  refine ⟨fun c u => ⟨rfl, rfl⟩, fun c u => ⟨rfl, rfl, rfl⟩, ?_⟩
  decide

/-- C7: resolving a link against a current location of the form
proto://host/dir/page: a raw string starting with a single slash resolves as
an absolute path against the current host, a raw string with no leading
slash resolves document-relatively (preserving the directory context), and a
raw string starting with a double slash combines the current scheme with the
raw string. -/
theorem click_link_relative_resolution (c : Client)
    (h : c.current_url = { scheme := "gemini", host := "host",
                           path := ["dir", "page"], query := none }) :
    c.click_link "/foo"
      = .ok { scheme := "gemini", host := "host", path := ["foo"], query := none }
    ∧ c.click_link "bar"
      = .ok { scheme := "gemini", host := "host", path := ["dir", "bar"], query := none }
    ∧ c.click_link "//host2/baz"
      = .ok { scheme := "gemini", host := "host2", path := ["baz"], query := none } := by
  obtain ⟨cu, rd, mx, hist, lwu, pg⟩ := c
  simp only at h
  subst h
  exact ⟨rfl, rfl, rfl⟩

/-- C7 witness: relative resolution at a concrete client. -/
theorem click_link_relative_resolution_witness :
    (Client.new ⟨"gemini", "host", ["dir", "page"], none⟩ Pager.Less).click_link "/foo"
      = .ok { scheme := "gemini", host := "host", path := ["foo"], query := none }
    ∧ (Client.new ⟨"gemini", "host", ["dir", "page"], none⟩ Pager.Less).click_link "bar"
      = .ok { scheme := "gemini", host := "host", path := ["dir", "bar"], query := none }
    ∧ (Client.new ⟨"gemini", "host", ["dir", "page"], none⟩ Pager.Less).click_link "//host2/baz"
      = .ok { scheme := "gemini", host := "host2", path := ["baz"], query := none } :=
  click_link_relative_resolution _ rfl

/-- C8: reload resolves to the current top of the history and back resolves
to the next-to-last history entry, failing when the history has fewer than
two entries; for history [L0, L1, L2], back yields L1 and reload yields
L2. -/
theorem back_reload_history (c : Client) :
    (∀ (xs : List Url) (a b : Url), c.history = xs ++ [a, b] →
        c.actual_previous_url = some a ∧ c.previous_url = some b)
    ∧ (c.history.length < 2 → c.actual_previous_url = none)
    ∧ (∀ (l0 l1 l2 : Url), c.history = [l0, l1, l2] →
        c.actual_previous_url = some l1 ∧ c.previous_url = some l2) := by
  have key : ∀ (xs : List Url) (a b : Url), c.history = xs ++ [a, b] →
      c.actual_previous_url = some a ∧ c.previous_url = some b := by
    intro xs a b h
    unfold Client.actual_previous_url Client.previous_url
    rw [h]
    constructor
    · have hlen : (xs ++ [a, b]).length = xs.length + 2 := by simp
      rw [if_pos (by omega)]
      rw [hlen]
      rw [show xs.length + 2 - 2 = xs.length by omega]
      rw [List.get?_append_right (le_refl _)]
      simp
    · rw [show xs ++ [a, b] = (xs ++ [a]) ++ [b] by simp]
      exact List.getLast?_concat _
  refine ⟨key, ?_, ?_⟩
  · intro h
    unfold Client.actual_previous_url
    rw [if_neg (by omega)]
  · intro l0 l1 l2 h
    exact key [l0] l1 l2 (by simpa using h)

/-- C8 witness: back and reload at the concrete history [L0, L1, L2]. -/
theorem back_reload_history_witness :
    ((((Client.new ⟨"gemini", "host", ["a"], none⟩ Pager.Less).request
          ⟨"gemini", "host", ["a"], none⟩).request
        ⟨"gemini", "host", ["b"], none⟩).request
      ⟨"gemini", "host", ["c"], none⟩).actual_previous_url
      = some ⟨"gemini", "host", ["b"], none⟩
    ∧ ((((Client.new ⟨"gemini", "host", ["a"], none⟩ Pager.Less).request
          ⟨"gemini", "host", ["a"], none⟩).request
        ⟨"gemini", "host", ["b"], none⟩).request
      ⟨"gemini", "host", ["c"], none⟩).previous_url
      = some ⟨"gemini", "host", ["c"], none⟩ :=
  (back_reload_history _).2.2 _ _ _ rfl

/-- C9 counterexample: the raw response "51 temp down\r\nbody" parses with
status class PermanentFailure, not TemporaryFailure as the claim states,
because 51 lies in the 50-59 permanent-failure range. -/
theorem parse_51_counterexample :
    responseTryFrom "51 temp down\r\nbody"
      = .ok { status_code := .PermanentFailure, status_code_num := 51,
              meta_description := "temp down", body := some "body", links := [] }
    ∧ StatusCode.PermanentFailure ≠ StatusCode.TemporaryFailure := by
  decide

/-- C9 amended: parsing the empty string fails with EmptyResponse, and
parsing "51 temp down\r\nbody" succeeds with status class PermanentFailure
(code 51 lies in the 50-59 range) and meta "temp down". -/
theorem parse_examples :
    responseTryFrom "" = .error .EmptyResponse
    ∧ responseTryFrom "51 temp down\r\nbody"
      = .ok { status_code := .PermanentFailure, status_code_num := 51,
              meta_description := "temp down", body := some "body", links := [] } := by
  decide

/-- C3 counterexample: with history [L0, L1] and current location L1, a
self-referential link to L1 resolves to L1 itself (the LAST history entry,
which is the current location), not to the preceding entry L0; and with a
one-entry history [L0] a self-referential link resolves to L0 instead of
failing with the no-previous-location error. -/
theorem click_link_self_counterexample :
    (((Client.new ⟨"gemini", "host", ["a"], none⟩ Pager.Less).request
          ⟨"gemini", "host", ["a"], none⟩).request
        ⟨"gemini", "host", ["b"], none⟩).click_link "gemini://host/b"
      = .ok ⟨"gemini", "host", ["b"], none⟩
    ∧ (⟨"gemini", "host", ["b"], none⟩ : Url) ≠ ⟨"gemini", "host", ["a"], none⟩
    ∧ ((Client.new ⟨"gemini", "host", ["a"], none⟩ Pager.Less).request
        ⟨"gemini", "host", ["a"], none⟩).click_link "gemini://host/a"
      = .ok ⟨"gemini", "host", ["a"], none⟩ := by
  decide

/-- C3 amended: a raw link that parses as a fully-qualified location in the
protocol's own scheme and equals the session's current location resolves to
the LAST history entry (under the session invariant this is the current
location itself, since every fetch pushes its target), and fails with the
no-previous-location error exactly when the history is empty. -/
theorem click_link_self (c : Client) (raw : String) (u : Url)
    (h1 : parseUrl raw = some u) (h2 : u.scheme = "gemini")
    (h3 : u = c.current_url) :
    c.click_link raw =
      match c.history.getLast? with
      | some v => Except.ok v
      | none => Except.error UrlParseError.RelativeUrlWithoutBase := by
  unfold Client.click_link Client.previous_url
  rw [h1]
  dsimp only
  rw [if_pos h2, if_pos h3]

/-- C3 witness: the amended statement at a concrete session. -/
theorem click_link_self_witness :
    (((Client.new ⟨"gemini", "host", ["a"], none⟩ Pager.Less).request
          ⟨"gemini", "host", ["a"], none⟩).request
        ⟨"gemini", "host", ["b"], none⟩).click_link "gemini://host/b"
      = match (((Client.new ⟨"gemini", "host", ["a"], none⟩ Pager.Less).request
            ⟨"gemini", "host", ["a"], none⟩).request
          ⟨"gemini", "host", ["b"], none⟩).history.getLast? with
        | some v => Except.ok v
        | none => Except.error UrlParseError.RelativeUrlWithoutBase :=
  click_link_self _ "gemini://host/b" ⟨"gemini", "host", ["b"], none⟩
    (by decide) rfl rfl

/-- A string starting with the link marker is unchanged by trim_start. -/
theorem trimStartS_marker (l : String) (h : startsWithS l "=>" = true) :
    trimStartS l = l := by
  have hdata : dropWS l.data = l.data := by
    unfold startsWithS at h
    cases hd : l.data with
    | nil => rw [hd] at h; simp [startsWithL] at h
    | cons c cs =>
      rw [hd] at h
      have hpat : ("=>" : String).data = ['=', '>'] := rfl
      rw [hpat] at h
      unfold startsWithL at h
      have hc : c = '=' := by
        have h' := (Bool.and_eq_true _ _).mp h
        exact beq_iff_eq.mp h'.1
      subst hc
      simp [dropWS, isWS]
  unfold trimStartS
  rw [hdata]

/-- C6 counterexample: a body line consisting of exactly the marker is NOT
excluded from the link list: it yields a Link with empty href and no name. -/
theorem bare_marker_counterexample :
    responseTryFrom "20 ok\r\n=>"
      = .ok { status_code := .Success, status_code_num := 20, meta_description := "ok",
              body := some "(0) =>", links := [{ href := "", name := none }] }
    ∧ ({ href := "", name := none } : Link) ∈ extractLinks ["=>"] := by
  decide

/-- C6 amended: a body line that starts with the marker and whose remainder
after stripping the marker and surrounding whitespace is empty yields a Link
with empty href and no display name; it is INCLUDED in the extracted link
list at its position, and the response parse does not fail on it. -/
theorem bare_marker_link (l : String)
    (h0 : startsWithS l "=>" = true)
    (h2 : trimS (stripMarker l) = "") :
    linkTryFrom l = some { href := "", name := none }
    ∧ ∀ (pre post : List String),
        extractLinks (pre ++ l :: post)
          = extractLinks pre ++ { href := "", name := none } :: extractLinks post := by
  have htrim : trimStartS l = l := trimStartS_marker l h0
  have hlink : linkTryFrom l = some { href := "", name := none } := by
    unfold linkTryFrom
    rw [htrim, if_pos h0, h2]
    rfl
  refine ⟨hlink, fun pre post => ?_⟩
  unfold extractLinks
  rw [List.filterMap_append, List.filterMap_cons]
  rw [if_pos h0, hlink]

/-- C6 witness: the amended statement at the bare-marker line. -/
theorem bare_marker_link_witness :
    linkTryFrom "=>" = some { href := "", name := none }
    ∧ extractLinks (["x"] ++ "=>" :: ["=> /a A"])
        = extractLinks ["x"] ++ { href := "", name := none } :: extractLinks ["=> /a A"] :=
  ⟨(bare_marker_link "=>" (by decide) (by decide)).1,
   (bare_marker_link "=>" (by decide) (by decide)).2 ["x"] ["=> /a A"]⟩

/-- The session state a redirect step produces: the target is appended to
the history and made current, and the redirect counter is incremented. -/
theorem redirectStep_state (c : Client) (t : Url) (m : String) :
    (redirectStep c t m).1
      = { c with history := c.history ++ [t], current_url := t,
                 redirects := c.redirects + 1 } := by
  unfold redirectStep handle_redirect Client.request
  dsimp only
  split
  · rfl
  · split <;> rfl

/-- A redirect step whose incremented counter meets the bound yields the
last-known-good location without resolving the redirect target. -/
theorem redirectStep_at_bound (c : Client) (t : Url) (m : String)
    (h : c.max_redirects ≤ c.redirects + 1) :
    (redirectStep c t m).2 = c.last_working_url := by
  unfold redirectStep handle_redirect Client.request
  dsimp only
  rw [if_pos h]

/-- Invariant of an all-redirect session starting from a fresh client: the
last-known-good location stays absent, the bound stays 5, and as long as the
session is still running the redirect counter equals the number of completed
steps. -/
theorem redirectTrace_invariant (c0 : Client) (u : Url) (meta : Nat → String)
    (h0 : c0.last_working_url = none) (hm : c0.max_redirects = 5)
    (hr : c0.redirects = 0) :
    ∀ n : Nat,
      (redirectTrace c0 u meta n).1.last_working_url = none
      ∧ (redirectTrace c0 u meta n).1.max_redirects = 5
      ∧ ((redirectTrace c0 u meta n).2.isSome = true →
          (redirectTrace c0 u meta n).1.redirects = n) := by
  intro n
  induction n with
  | zero => exact ⟨h0, hm, fun _ => hr⟩
  | succ n ih =>
    obtain ⟨ih1, ih2, ih3⟩ := ih
    have hun : redirectTrace c0 u meta (n + 1)
        = match redirectTrace c0 u meta n with
          | (c1, some u1) => redirectStep c1 u1 (meta n)
          | (c1, none) => (c1, none) := rfl
    cases htr : redirectTrace c0 u meta n with
    | mk c1 r =>
      rw [htr] at ih1 ih2 ih3 hun
      cases r with
      | none =>
        rw [hun]
        exact ⟨ih1, ih2, by intro h; simp at h⟩
      | some u1 =>
        rw [hun]
        dsimp only
        have hc1 : c1.redirects = n := ih3 rfl
        refine ⟨?_, ?_, ?_⟩
        · rw [redirectStep_state]; exact ih1
        · rw [redirectStep_state]; exact ih2
        · intro _
          rw [redirectStep_state]
          dsimp only
          omega

/-- C2: each Redirect-classified step increments the session's redirect
counter; a step whose incremented counter reaches the bound does not resolve
the redirect target but yields the last-known-good location (terminating
when none exists); the bound of a fresh session is 5, and a session whose
every fetch classifies as Redirect has terminated within 5 steps: the trace
of length 5 carries no next location, and when the first 4 steps all
resolved, the counter has been incremented exactly 4 times after step 4 and
exactly 5 times at the terminating step 5. -/
theorem redirect_chain_bounded (c : Client) (t : Url) (m : String)
    (l0 : Url) (p : Pager) (meta : Nat → String) :
    (redirectStep c t m).1.redirects = c.redirects + 1
    ∧ (c.max_redirects ≤ c.redirects + 1 →
        (redirectStep c t m).2 = c.last_working_url)
    ∧ (Client.new l0 p).max_redirects = 5
    ∧ (redirectTrace (Client.new l0 p) l0 meta 5).2 = none
    ∧ ((redirectTrace (Client.new l0 p) l0 meta 4).2.isSome = true →
        (redirectTrace (Client.new l0 p) l0 meta 4).1.redirects = 4
        ∧ (redirectTrace (Client.new l0 p) l0 meta 5).1.redirects = 5
        ∧ (redirectTrace (Client.new l0 p) l0 meta 5).2 = none) := by
  have inv := redirectTrace_invariant (Client.new l0 p) l0 meta rfl rfl rfl
  have unfold5 : redirectTrace (Client.new l0 p) l0 meta 5
      = match redirectTrace (Client.new l0 p) l0 meta 4 with
        | (c1, some u1) => redirectStep c1 u1 (meta 4)
        | (c1, none) => (c1, none) := rfl
  have h5 : ∀ (c4 : Client) (u4 : Url),
      redirectTrace (Client.new l0 p) l0 meta 4 = (c4, some u4) →
      (redirectTrace (Client.new l0 p) l0 meta 5).2 = none
      ∧ (redirectTrace (Client.new l0 p) l0 meta 5).1.redirects = 5 := by
    intro c4 u4 h
    have hred : c4.redirects = 4 := by
      have h3 := (inv 4).2.2
      rw [h] at h3
      exact h3 rfl
    have hmax : c4.max_redirects = 5 := by
      have h2 := (inv 4).2.1
      rw [h] at h2
      exact h2
    have hlwu : c4.last_working_url = none := by
      have h1 := (inv 4).1
      rw [h] at h1
      exact h1
    rw [unfold5, h]
    dsimp only
    constructor
    · rw [redirectStep_at_bound _ _ _ (by omega)]
      exact hlwu
    · rw [redirectStep_state]
      dsimp only
      omega
  have part4 : (redirectTrace (Client.new l0 p) l0 meta 5).2 = none := by
    cases htr : redirectTrace (Client.new l0 p) l0 meta 4 with
    | mk c4 r4 =>
      cases r4 with
      | none => rw [unfold5, htr]
      | some u4 => exact (h5 c4 u4 htr).1
  refine ⟨by rw [redirectStep_state], fun h => redirectStep_at_bound c t m h, rfl, part4, ?_⟩
  intro h4
  obtain ⟨u4, hu4⟩ := Option.isSome_iff_exists.mp h4
  cases htr : redirectTrace (Client.new l0 p) l0 meta 4 with
  | mk c4 r4 =>
    rw [htr] at hu4
    dsimp only at hu4
    subst hu4
    have hred : c4.redirects = 4 := by
      have h3 := (inv 4).2.2
      rw [htr] at h3
      exact h3 rfl
    refine ⟨hred, (h5 c4 u4 htr).2, (h5 c4 u4 htr).1⟩

/-- C2 witness: a concrete all-redirect session with resolvable redirect
targets terminates at step 5 with the counter at 5. -/
theorem redirect_chain_bounded_witness :
    (redirectTrace (Client.new ⟨"gemini", "host", ["a"], none⟩ Pager.Less)
        ⟨"gemini", "host", ["a"], none⟩ (fun _ => "gemini://host/z") 4).1.redirects = 4
    ∧ (redirectTrace (Client.new ⟨"gemini", "host", ["a"], none⟩ Pager.Less)
        ⟨"gemini", "host", ["a"], none⟩ (fun _ => "gemini://host/z") 5).1.redirects = 5
    ∧ (redirectTrace (Client.new ⟨"gemini", "host", ["a"], none⟩ Pager.Less)
        ⟨"gemini", "host", ["a"], none⟩ (fun _ => "gemini://host/z") 5).2 = none :=
  (redirect_chain_bounded (Client.new ⟨"gemini", "host", ["a"], none⟩ Pager.Less)
      ⟨"gemini", "host", ["a"], none⟩ "m" ⟨"gemini", "host", ["a"], none⟩ Pager.Less
      (fun _ => "gemini://host/z")).2.2.2.2 (by decide)

theorem countLinkBefore_cons_succ (l : String) (ls : List String) (j : Nat) :
    countLinkBefore (l :: ls) (j + 1)
      = (if startsWithS (trimStartS l) "=>" = true then 1 else 0)
        + countLinkBefore ls j := by
  unfold countLinkBefore
  rw [List.take_succ_cons, List.filter_cons]
  by_cases h : startsWithS (trimStartS l) "=>" = true <;> simp [h, Nat.add_comm]

/-- The body-annotating map at position j: an annotation-link line carries
the marker counting the link lines before it (offset by the running
counter), any other line passes through unchanged. -/
theorem annotateBody_get? (lines : List String) (k j : Nat) (hj : j < lines.length) :
    (annotateBody lines k).get? j =
      some (if startsWithS (trimStartS (lines.getD j "")) "=>" = true
            then "(" ++ toString (k + countLinkBefore lines j) ++ ") "
                   ++ trimStartS (lines.getD j "")
            else lines.getD j "") := by
  induction lines generalizing k j with
  | nil => simp at hj
  | cons l ls ih =>
    cases j with
    | zero =>
      unfold annotateBody
      by_cases hP : startsWithS (trimStartS l) "=>" = true
      · rw [if_pos hP]
        simp [countLinkBefore, hP]
      · rw [if_neg hP]
        simp [countLinkBefore, hP]
    | succ j =>
      have hj' : j < ls.length := by simpa using hj
      have harith : k + countLinkBefore (l :: ls) (j + 1)
          = (k + (if startsWithS (trimStartS l) "=>" = true then 1 else 0))
            + countLinkBefore ls j := by
        rw [countLinkBefore_cons_succ]
        omega
      unfold annotateBody
      by_cases hP : startsWithS (trimStartS l) "=>" = true
      · rw [if_pos hP, List.get?_cons_succ, ih (k + 1) j hj', List.getD_cons_succ,
          harith, if_pos hP]
      · rw [if_neg hP, List.get?_cons_succ, ih k j hj', List.getD_cons_succ,
          harith, if_neg hP, Nat.add_zero]

/-- A line whose trimmed form starts with the marker always parses to a
link (the first component of the space split always exists). -/
theorem linkTryFrom_some (l : String)
    (h : startsWithS (trimStartS l) "=>" = true) :
    linkTryFrom l
      = some { href := ⟨(splitFirstSpace (trimS (stripMarker (trimStartS l))).data).1⟩
               name := (splitFirstSpace (trimS (stripMarker (trimStartS l))).data).2.map
                         (fun cl => ⟨cl⟩) } := by
  unfold linkTryFrom
  rw [if_pos h]

theorem extractLinks_cons (l : String) (ls : List String) :
    extractLinks (l :: ls)
      = if startsWithS l "=>" = true
        then match linkTryFrom l with
             | some k => k :: extractLinks ls
             | none => extractLinks ls
        else extractLinks ls := by
  by_cases h : startsWithS l "=>" = true <;> cases hk : linkTryFrom l <;>
    simp [extractLinks, List.filterMap_cons, h, hk]

/-- When the trimmed and untrimmed marker tests agree on every line, the
extracted link at the index counted by the annotation is the link parsed
from that very line. -/
theorem extractLinks_get? (lines : List String)
    (H : ∀ l ∈ lines, startsWithS (trimStartS l) "=>" = startsWithS l "=>") :
    ∀ j : Nat, j < lines.length →
      startsWithS (trimStartS (lines.getD j "")) "=>" = true →
      (extractLinks lines).get? (countLinkBefore lines j)
          = linkTryFrom (lines.getD j "")
      ∧ (linkTryFrom (lines.getD j "")).isSome = true := by
  induction lines with
  | nil => intro j hj; simp at hj
  | cons l ls ih =>
    intro j hj hP
    have Hl := H l (List.mem_cons_self l ls)
    have Hls : ∀ x ∈ ls, startsWithS (trimStartS x) "=>" = startsWithS x "=>" :=
      fun x hx => H x (List.mem_cons_of_mem l hx)
    cases j with
    | zero =>
      simp only [List.getD_cons_zero] at hP ⊢
      have hl0 : startsWithS l "=>" = true := by rw [← Hl]; exact hP
      have hsome := linkTryFrom_some l hP
      refine ⟨?_, by rw [hsome]; rfl⟩
      rw [extractLinks_cons, if_pos hl0, hsome]
      simp [countLinkBefore]
    | succ j =>
      have hj' : j < ls.length := by simpa using hj
      simp only [List.getD_cons_succ] at hP ⊢
      obtain ⟨ih1, ih2⟩ := ih Hls j hj' hP
      by_cases hPl : startsWithS (trimStartS l) "=>" = true
      · have hl0 : startsWithS l "=>" = true := by rw [← Hl]; exact hPl
        have hsome := linkTryFrom_some l hPl
        refine ⟨?_, ih2⟩
        rw [extractLinks_cons, if_pos hl0, hsome, countLinkBefore_cons_succ,
          if_pos hPl, Nat.add_comm 1, List.get?_cons_succ]
        exact ih1
      · have hl0 : startsWithS l "=>" = false := by rw [← Hl]; exact (by simpa using hPl)
        refine ⟨?_, ih2⟩
        rw [extractLinks_cons, if_neg (by simp [hl0]), countLinkBefore_cons_succ,
          if_neg hPl, Nat.zero_add]
        exact ih1

/-- C5 counterexample: the body annotation tests lines after stripping
leading whitespace, but link extraction tests them unstripped, so a link
line with leading whitespace is annotated (consuming marker index 0) yet
absent from the extracted list: the body carries markers (0) and (1) while
only one link is extracted, and extraction index 1 is empty. -/
theorem annotation_extraction_counterexample :
    responseTryFrom "20 ok\r\n => /a A\r\n=> /b B"
      = .ok { status_code := .Success, status_code_num := 20, meta_description := "ok",
              body := some "(0) => /a A\n(1) => /b B",
              links := [{ href := "/b", name := some "B" }] }
    ∧ (extractLinks [" => /a A", "=> /b B"]).get? 1 = none
    ∧ (extractLinks [" => /a A", "=> /b B"]).get? 0 = linkTryFrom "=> /b B" := by
  decide

/-- C5 amended: a line is annotated as a link line iff after stripping
leading whitespace it starts with the marker, but extraction accepts only
lines starting with the marker unstripped; when the two tests agree on every
line of the body (in particular when no link line has leading whitespace),
the zero-based index embedded at an annotated line equals the position of
that line's link in the extracted list, and non-link lines pass through to
the body unchanged. -/
theorem annotation_matches_extraction (lines : List String)
    (H : ∀ l ∈ lines, startsWithS (trimStartS l) "=>" = startsWithS l "=>")
    (j : Nat) (l : String) (hl : lines.get? j = some l) :
    (startsWithS (trimStartS l) "=>" = true →
      (annotateBody lines 0).get? j
          = some ("(" ++ toString (countLinkBefore lines j) ++ ") " ++ trimStartS l)
      ∧ (extractLinks lines).get? (countLinkBefore lines j) = linkTryFrom l
      ∧ (linkTryFrom l).isSome = true)
    ∧ (startsWithS (trimStartS l) "=>" = false →
      (annotateBody lines 0).get? j = some l) := by
  have hj : j < lines.length := by
    by_contra hcon
    rw [List.get?_eq_none.mpr (by omega)] at hl
    exact Option.noConfusion hl
  have hgetD : lines.getD j "" = l := by
    rw [List.getD_eq_get?, hl]
    rfl
  have hann := annotateBody_get? lines 0 j hj
  rw [hgetD] at hann
  constructor
  · intro hP
    have hext := extractLinks_get? lines H j hj (by rw [hgetD]; exact hP)
    rw [hgetD] at hext
    exact ⟨by rw [hann, if_pos hP, Nat.zero_add], hext.1, hext.2⟩
  · intro hP
    rw [hann, if_neg (by simp [hP])]

/-- C5 witness: the amended statement at a concrete body. -/
theorem annotation_matches_extraction_witness :
    (annotateBody ["=> /a First", "text"] 0).get? 0
        = some ("(" ++ toString (countLinkBefore ["=> /a First", "text"] 0) ++ ") "
                 ++ trimStartS "=> /a First")
    ∧ (extractLinks ["=> /a First", "text"]).get?
        (countLinkBefore ["=> /a First", "text"] 0) = linkTryFrom "=> /a First"
    ∧ (linkTryFrom "=> /a First").isSome = true :=
  (annotation_matches_extraction ["=> /a First", "text"] (by decide) 0 "=> /a First"
    rfl).1 (by decide)

/-- Splitting a line at the first space always yields a first token. -/
theorem splitn2_ne_nil (s : String) : splitn2 s ≠ [] := by
  unfold splitn2
  cases hsp : splitFirstSpace s.data with
  | mk a b => cases b <;> simp

theorem rustLinesAux_eq_nil (data : List Char) :
    ∀ cur : List Char, (rustLinesAux cur data = [] ↔ (cur = [] ∧ data = [])) := by
  induction data with
  | nil =>
    intro cur
    by_cases hc : cur = [] <;> simp [rustLinesAux, hc]
  | cons c rest ih =>
    intro cur
    by_cases hc : c = '\n'
    · simp [rustLinesAux, hc]
    · simp [rustLinesAux, hc, ih (c :: cur)]

/-- The line iterator is empty exactly on the empty input. -/
theorem rustLines_eq_nil_iff (s : String) : rustLines s = [] ↔ s = "" := by
  unfold rustLines
  rw [List.map_eq_nil, rustLinesAux_eq_nil s.data []]
  constructor
  · rintro ⟨-, h⟩
    exact congrArg String.mk h
  · rintro rfl
    exact ⟨rfl, rfl⟩

/-- C10: response parsing never yields the MissingStatusCode error (the
first-space split always produces a first token); the EmptyResponse error
occurs exactly on the empty input (the only input with no lines); and a
nonempty input whose first token does not parse as an integer in 0-255
yields InvalidStatusCode. -/
theorem no_missing_status_code (s : String) :
    responseTryFrom s ≠ .error .MissingStatusCode
    ∧ (responseTryFrom s = .error .EmptyResponse ↔ s = "")
    ∧ (∀ (first : String) (rest : List String), rustLines s = first :: rest →
        parseU8 ((splitn2 first).headD "") = none →
        responseTryFrom s = .error .InvalidStatusCode) := by
  unfold responseTryFrom
  cases hL : rustLines s with
  | nil =>
    refine ⟨by simp, ⟨fun _ => (rustLines_eq_nil_iff s).mp hL, fun _ => rfl⟩, ?_⟩
    intro first rest hfr
    exact absurd hfr (by simp)
  | cons first_line rest =>
    dsimp only
    have hs : s ≠ "" := by
      intro hcon
      rw [hcon] at hL
      have hnil : ([] : List String) = first_line :: rest := hL
      exact List.noConfusion hnil
    cases hsp : splitFirstSpace first_line.data with
    | mk a b =>
      cases b with
      | none =>
        have hparts : splitn2 first_line = [(⟨a⟩ : String)] := by
          unfold splitn2
          rw [hsp]
        rw [hparts]
        dsimp only [List.head?]
        cases hpu : parseU8 (⟨a⟩ : String) with
        | none =>
          refine ⟨by simp, by simp [hs], ?_⟩
          intro first rest2 hfr hpu2
          simp
        | some n =>
          refine ⟨by simp, by simp [hs], ?_⟩
          intro first rest2 hfr hpu2
          obtain ⟨rfl, -⟩ := List.cons.inj hfr
          rw [hparts] at hpu2
          simp at hpu2
          rw [hpu] at hpu2
          exact Option.noConfusion hpu2
      | some bb =>
        have hparts : splitn2 first_line = [(⟨a⟩ : String), ⟨bb⟩] := by
          unfold splitn2
          rw [hsp]
        rw [hparts]
        dsimp only [List.head?]
        cases hpu : parseU8 (⟨a⟩ : String) with
        | none =>
          refine ⟨by simp, by simp [hs], ?_⟩
          intro first rest2 hfr hpu2
          simp
        | some n =>
          refine ⟨by simp, by simp [hs], ?_⟩
          intro first rest2 hfr hpu2
          obtain ⟨rfl, -⟩ := List.cons.inj hfr
          rw [hparts] at hpu2
          simp at hpu2
          rw [hpu] at hpu2
          exact Option.noConfusion hpu2

/-- C10 witness: a first line with a non-numeric first token yields
InvalidStatusCode, never MissingStatusCode. -/
theorem no_missing_status_code_witness :
    responseTryFrom "xx yy" ≠ .error .MissingStatusCode
    ∧ (responseTryFrom "xx yy" = .error .EmptyResponse ↔ ("xx yy" : String) = "")
    ∧ responseTryFrom "xx yy" = .error .InvalidStatusCode :=
  ⟨(no_missing_status_code "xx yy").1, (no_missing_status_code "xx yy").2.1,
   (no_missing_status_code "xx yy").2.2 "xx yy" [] (by decide) (by decide)⟩

end Gemini
